import Mathlib

/-!
A verification development for the `funkpy` mock engine (`mock.py`).

The Python source is shallowly embedded: argument values become the inductive
`Val`, matcher objects (`OfType`, `Like`) become `MVal`, exceptions become the
`PyErr` sum, and the mutable `Expectation` / `Mock` objects become inductive
values threaded explicitly through each operation.  Every operation below is a
direct transcription of the corresponding Python function; comments quote the
source where behaviour is subtle.
-/

deriving instance DecidableEq for Except

namespace Funkpy

/-- Python runtime types of the argument values in the model. -/
inductive Ty where
  | int
  | str
  | noneType
deriving DecidableEq, Repr

/-- Argument values: the fragment of Python values exercised by the engine. -/
inductive Val where
  | vint : Int → Val
  | vstr : String → Val
  | vnone : Val
deriving DecidableEq, Repr

/-- `type(v)` on a modelled value. -/
def Val.ty : Val → Ty
  | .vint _ => .int
  | .vstr _ => .str
  | .vnone => .noneType

/-- The values that can sit in the `fn` / `method_name` slots of an
`Expectation`.  Normally `fn` is `None` or a function (represented by
`list(fn.__code__.co_varnames)`) and `method_name` is a string, but
`Expectation.restore` passes them positionally in swapped order, so either
slot can end up holding any of the three. -/
inductive FnArg where
  | none
  | func : List String → FnArg
  | str : String → FnArg
deriving DecidableEq, Repr

/-- A Python exception object handed to `raises(ex)`: its class name and message. -/
structure ExVal where
  kind : String
  msg : String
deriving DecidableEq, Repr

/-- Exceptions the embedded code can raise. -/
inductive PyErr where
  | assertionError : String → PyErr
  | typeError : String → PyErr
  | attributeError : String → PyErr
  | indexError : String → PyErr
  | keyError : String → PyErr
  | raised : ExVal → PyErr
deriving DecidableEq, Repr

/-! ### Regular expressions (the patterns handed to `Like` / `re.compile`) -/

/-- Abstract syntax of the regular expressions wrapped by `Like`. -/
inductive Regex where
  | emp
  | eps
  | chr : Char → Regex
  | dot
  | seq : Regex → Regex → Regex
  | alt : Regex → Regex → Regex
  | star : Regex → Regex
deriving DecidableEq, Repr

/-- Does the regex accept the empty string? -/
def Regex.nullable : Regex → Bool
  | .emp => false
  | .eps => true
  | .chr _ => false
  | .dot => false
  | .seq a b => a.nullable && b.nullable
  | .alt a b => a.nullable || b.nullable
  | .star _ => true

/-- Brzozowski derivative of a regex by one character. -/
def Regex.deriv : Regex → Char → Regex
  | .emp, _ => .emp
  | .eps, _ => .emp
  | .chr c, a => if a = c then .eps else .emp
  | .dot, _ => .eps
  | .seq r1 r2, a =>
    if r1.nullable then .alt (.seq (r1.deriv a) r2) (r2.deriv a) else .seq (r1.deriv a) r2
  | .alt r1 r2, a => .alt (r1.deriv a) (r2.deriv a)
  | .star r, a => .seq (r.deriv a) (.star r)

/-- Language membership: does the regex accept exactly this character list? -/
def Regex.accepts (r : Regex) : List Char → Bool
  | [] => r.nullable
  | c :: cs => (r.deriv c).accepts cs

/-- Scan for a match anchored at the start: succeed as soon as the regex
accepts some prefix of the remaining input. -/
def matchFrom (r : Regex) : List Char → Bool
  | [] => r.nullable
  | c :: cs => r.nullable || matchFrom (r.deriv c) cs

/-- `re.compile(pattern).match(s) is not None`: anchored at the start of `s`,
not required to consume the whole string. -/
def reMatch (r : Regex) (s : String) : Bool :=
  matchFrom r s.data

/-! ### Matchers -/

/-- The values appearing in a configured matcher-set (`on` / `called_with`):
a bare literal (matched by value equality), an `OfType` instance or a `Like`
instance. -/
inductive MVal where
  | lit : Val → MVal
  | ofType : Ty → MVal
  | like : Regex → MVal
deriving DecidableEq, Repr

/-- The result of the Python comparison `matcher == value` (equivalently
`value == matcher`: a plain value's `__eq__` on a foreign matcher object
returns `NotImplemented` and Python falls back to the matcher's reflected
`__eq__`).  `OfType.__eq__` is `type(other) == self.expected`;
`Like.__eq__` is `self.expected.match(other) is not None`, and
`re.Pattern.match` raises a `TypeError` on a non-text argument. -/
def matchEq : MVal → Val → Except PyErr Bool
  | .lit v, w => .ok (decide (v = w))
  | .ofType t, w => .ok (decide (w.ty = t))
  | .like r, .vstr s => .ok (reMatch r s)
  | .like _, _ => .error (.typeError "expected string or bytes-like object")

/-! ### Argument normalization (`_normalize_args`) -/

/-- A normalized argument set: a tuple of positionals (no known signature) or
a dict keyed by parameter name.  `α` is `Val` for real calls and `MVal` for
configured matcher-sets. -/
inductive NormArgs (α : Type) where
  | pos : List α → NormArgs α
  | kw : List (String × α) → NormArgs α
deriving DecidableEq, Repr

/-- Python dict lookup on the insertion-ordered association list. -/
def lookupD {α : Type} : List (String × α) → String → Option α
  | [], _ => Option.none
  | (k, v) :: rest, k' => if k' = k then some v else lookupD rest k'

/-- Python dict assignment `d[k] = v`: overwrite in place if the key exists
(keeping its position), otherwise append. -/
def dictSet {α : Type} (d : List (String × α)) (k : String) (v : α) : List (String × α) :=
  if d.any (fun p => p.1 = k) then
    d.map (fun p => if p.1 = k then (k, v) else p)
  else
    d ++ [(k, v)]

/-- The keys of a dict, in insertion order. -/
def keysOf {α : Type} (d : List (String × α)) : List String :=
  d.map Prod.fst

/-- Code-point lexicographic strict comparison of character lists (Python's
string `<`). -/
def listLtB : List Char → List Char → Bool
  | [], [] => false
  | [], _ :: _ => true
  | _ :: _, [] => false
  | c :: cs, d :: ds =>
    if c.toNat < d.toNat then true
    else if d.toNat < c.toNat then false
    else listLtB cs ds

/-- Python's `a <= b` on strings: code-point lexicographic order. -/
def strLeB (a b : String) : Bool :=
  !listLtB b.data a.data

/-- Insert a string into an ascending list, before the first element it is `≤`
(a stable insertion, like Python's stable `sorted`). -/
def insertSorted (x : String) : List String → List String
  | [] => [x]
  | y :: ys => if strLeB x y then x :: y :: ys else y :: insertSorted x ys

/-- Ascending stable sort of a list of strings (insertion sort; for the total
lexicographic order on strings this computes the same ascending sequence as
Python's `sorted`). -/
def sortStrings : List String → List String
  | [] => []
  | x :: xs => insertSorted x (sortStrings xs)

/-- `sorted(d.keys())`. -/
def sortedKeys {α : Type} (d : List (String × α)) : List String :=
  sortStrings (keysOf d)

/-- The loop of `_normalize_args`:
`for index, arg in enumerate(args): all_args_kw[arg_map[index]] = arg`,
starting from the dict `d` (which the source aliases to `kwargs`).
`arg_map[index]` raises `IndexError` when there are more positional arguments
than declared names. -/
def assignPositionals {α : Type} (arg_map : List String) :
    List (String × α) → Nat → List α → Except PyErr (List (String × α))
  | d, _, [] => .ok d
  | d, i, a :: rest =>
    match arg_map[i]? with
    | Option.none => .error (.indexError "list index out of range")
    | some varname => assignPositionals arg_map (dictSet d varname a) (i + 1) rest

/-- `_normalize_args(arg_map, *args, **kwargs)`.  With no argument map the
positional tuple is returned as-is and any keyword argument is an
`AssertionError`; with an argument map the keyword dict is taken first and
each positional argument is then assigned under its declared name. -/
def normalize_args {α : Type} (arg_map : Option (List String))
    (args : List α) (kwargs : List (String × α)) : Except PyErr (NormArgs α) :=
  match arg_map with
  | Option.none =>
    if kwargs.isEmpty then .ok (.pos args)
    else .error (.assertionError "cannot merge kwargs without function definition")
  | some names => (assignPositionals names kwargs 0 args).map NormArgs.kw

/-! ### Argument matching (`_args_match`)

`_args_match` is called with mixed element types in two orders:
`_args_match(self.args, call)` from `CalledWith` (matchers on the expected
side) and `_args_match(merged_args, expected_call[0])` from
`Expectation.__call__` (matchers on the actual side).  Both elementwise
comparisons resolve to the matcher's `__eq__` (directly or via Python's
reflected-equality fallback), so both directions use `matchEq`; the iteration
order of each transcription follows its call site. -/

/-- Dict branch of `_args_match(self.args, call)`: iterate the matcher dict,
index the call dict. -/
def matchPairsMF : List (String × MVal) → List (String × Val) → Except PyErr Bool
  | [], _ => .ok true
  | (k, v) :: rest, actual =>
    match lookupD actual k with
    | Option.none => .error (.keyError k)
    | some av =>
      match matchEq v av with
      | .error e => .error e
      | .ok true => matchPairsMF rest actual
      | .ok false => .ok false

/-- Tuple branch of `_args_match(self.args, call)`: elementwise comparison
(lengths are checked by the caller). -/
def matchPosMF : List MVal → List Val → Except PyErr Bool
  | [], _ => .ok true
  | v :: rest, av :: arest =>
    match matchEq v av with
    | .error e => .error e
    | .ok true => matchPosMF rest arest
    | .ok false => .ok false
  | _ :: _, [] => .error (.indexError "tuple index out of range")

/-- `_args_match(expected, actual)` with the matcher-set on the expected side,
as called by `CalledWith.__call__`. -/
def args_match (expected : NormArgs MVal) (actual : NormArgs Val) : Except PyErr Bool :=
  match expected, actual with
  | .kw em, .kw am =>
    if sortedKeys em = sortedKeys am then matchPairsMF em am else .ok false
  | .pos el, .pos al =>
    if el.length = al.length then matchPosMF el al else .ok false
  | _, _ => .ok false

/-- Dict branch of `_args_match(merged_args, expected_call[0])`: iterate the
call dict, index the matcher dict. -/
def matchPairsCF : List (String × Val) → List (String × MVal) → Except PyErr Bool
  | [], _ => .ok true
  | (k, v) :: rest, matcher =>
    match lookupD matcher k with
    | Option.none => .error (.keyError k)
    | some av =>
      match matchEq av v with
      | .error e => .error e
      | .ok true => matchPairsCF rest matcher
      | .ok false => .ok false

/-- Tuple branch of `_args_match(merged_args, expected_call[0])`. -/
def matchPosCF : List Val → List MVal → Except PyErr Bool
  | [], _ => .ok true
  | v :: rest, av :: arest =>
    match matchEq av v with
    | .error e => .error e
    | .ok true => matchPosCF rest arest
    | .ok false => .ok false
  | _ :: _, [] => .error (.indexError "tuple index out of range")

/-- `_args_match(merged_args, expected_call[0])`: the normalized call on the
expected side, the configured matcher-set on the actual side, exactly as
`Expectation.__call__` invokes it. -/
def args_match_call (expected : NormArgs Val) (actual : NormArgs MVal) : Except PyErr Bool :=
  match expected, actual with
  | .kw em, .kw am =>
    if sortedKeys em = sortedKeys am then matchPairsCF em am else .ok false
  | .pos el, .pos al =>
    if el.length = al.length then matchPosCF el al else .ok false
  | _, _ => .ok false

/-! ### Expectation -/

/-- The `_returns` closure: `lambda: None` at construction (modelled as
`ret .vnone`), `lambda: rv` after `returns(rv)`, `lambda: _raise(ex)` after
`raises(ex)`. -/
inductive RetSpec where
  | ret : Val → RetSpec
  | raiseEx : ExVal → RetSpec
deriving DecidableEq, Repr

/-- Evaluate `self._returns()`. -/
def runRet : RetSpec → Except PyErr Val
  | .ret v => .ok v
  | .raiseEx ex => .error (.raised ex)

/-- A stored verification check: `CalledExactly`, `CalledAtLeast` or
`CalledWith`. -/
inductive Check where
  | calledExactly : Nat → Check
  | calledAtLeast : Nat → Check
  | calledWith : NormArgs MVal → Check
deriving DecidableEq, Repr

/-- The Python return value of a configuration method: `self`, or `None` for
a method body without a `return` statement. -/
inductive ConfigRet where
  | retSelf
  | retNone
deriving DecidableEq, Repr

mutual
/-- The state of an `Expectation` object, in field order: `fn`,
`method_name`, `arg_map`, `_returns`, `calls`, `checks`,
`call_expectations`. -/
inductive Expectation where
  | mk : FnArg → FnArg → Option (List String) → RetSpec → List (NormArgs Val) →
      List Check → RuleList → Expectation
/-- `call_expectations`: the ordered list of `(call_matcher, Expectation)`
pairs appended by `on`. -/
inductive RuleList where
  | nil : RuleList
  | cons : NormArgs MVal → Expectation → RuleList → RuleList
end

def Expectation.fn : Expectation → FnArg
  | .mk f _ _ _ _ _ _ => f

def Expectation.method_name : Expectation → FnArg
  | .mk _ n _ _ _ _ _ => n

def Expectation.arg_map : Expectation → Option (List String)
  | .mk _ _ am _ _ _ _ => am

def Expectation.retSpec : Expectation → RetSpec
  | .mk _ _ _ rs _ _ _ => rs

def Expectation.calls : Expectation → List (NormArgs Val)
  | .mk _ _ _ _ cs _ _ => cs

def Expectation.checks : Expectation → List Check
  | .mk _ _ _ _ _ ck _ => ck

def Expectation.call_expectations : Expectation → RuleList
  | .mk _ _ _ _ _ _ r => r

/-- `Expectation.__init__(self, fn=None, method_name='')`: `arg_map` is
`None` unless `fn` is not `None`, in which case it is
`list(fn.__code__.co_varnames)` — which raises `AttributeError` when the
`fn` slot holds a string (as happens on `Expectation.restore`). -/
def Expectation.initE (fn : FnArg) (method_name : FnArg) : Except PyErr Expectation :=
  match fn with
  | .none => .ok (.mk fn method_name Option.none (.ret .vnone) [] [] .nil)
  | .func varnames => .ok (.mk fn method_name (some varnames) (.ret .vnone) [] [] .nil)
  | .str _ => .error (.attributeError "str object has no attribute __code__")

/-- `Expectation.restore`: the source executes
`self.__init__(self.method_name, self.fn)`.  These positional arguments
match `Mock.__init__(self, method_name='', fn=None)` but are in the opposite
order of `Expectation.__init__(self, fn=None, method_name='')`, so on a plain
`Expectation` the name lands in the `fn` slot and the function in the
`method_name` slot. -/
def Expectation.restore (e : Expectation) : Except PyErr Expectation :=
  Expectation.initE e.method_name e.fn

mutual
/-- `Expectation.__call__(self, *args, **kwargs)`: normalize (an error here
leaves the object untouched), append the merged form to `calls`, walk the
rules in declaration order dispatching the first full match, otherwise fall
back to `self._returns()`.  Mutation is modelled by returning the updated
object alongside the Python result; when an exception propagates, the
mutations made before the raise are kept, as in Python. -/
def Expectation.call : Expectation → List Val → List (String × Val) →
    Expectation × Except PyErr Val
  | .mk fn mn am rs calls checks rules, args, kwargs =>
    match normalize_args am args kwargs with
    | .error err => (.mk fn mn am rs calls checks rules, .error err)
    | .ok merged =>
      match walkRules rules args kwargs merged with
      | (rules', some res) => (.mk fn mn am rs (calls ++ [merged]) checks rules', res)
      | (rules', Option.none) => (.mk fn mn am rs (calls ++ [merged]) checks rules', runRet rs)

/-- The rule walk of `Expectation.__call__`: on the first rule whose matcher
fully matches the merged call, dispatch that rule's nested Expectation with
the original raw arguments (`expected_call[-1](*args, **kwargs)`) and return
its result; a matcher error propagates uncaught. -/
def walkRules : RuleList → List Val → List (String × Val) → NormArgs Val →
    RuleList × Option (Except PyErr Val)
  | .nil, _, _, _ => (.nil, Option.none)
  | .cons m ne rest, args, kwargs, merged =>
    match args_match_call merged m with
    | .error err => (.cons m ne rest, some (.error err))
    | .ok true =>
      match Expectation.call ne args kwargs with
      | (ne', res) => (.cons m ne' rest, some res)
    | .ok false =>
      match walkRules rest args kwargs merged with
      | (rest', r) => (.cons m ne rest', r)
end

/-- Debug label used in check messages: the source interpolates
`self.method_name` (normally a string) into the failure message. -/
def fnArgStr : FnArg → String
  | .none => "None"
  | .str s => s
  | .func _ => "function"

/-- `CalledWith.__call__`: succeed as soon as one recorded call matches the
configured argument set, else raise `AssertionError` (the source interpolates
the argument set into the message; the model keeps a fixed suffix). -/
def checkCalledWith (cargs : NormArgs MVal) (mn : FnArg) :
    List (NormArgs Val) → Except PyErr Unit
  | [] => .error (.assertionError (fnArgStr mn ++ " was not called with expected args"))
  | c :: rest =>
    match args_match cargs c with
    | .error e => .error e
    | .ok true => .ok ()
    | .ok false => checkCalledWith cargs mn rest

/-- Evaluate one stored check against the current state
(`CalledExactly.__call__`, `CalledAtLeast.__call__`, `CalledWith.__call__`).
The `at least` message reproduces the source's missing space. -/
def runCheck (c : Check) (e : Expectation) : Except PyErr Unit :=
  match c with
  | .calledExactly n =>
    if e.calls.length ≠ n then
      .error (.assertionError (fnArgStr e.method_name ++ " was called " ++
        toString e.calls.length ++ " time(s) but expected exactly " ++ toString n ++ " time(s)"))
    else .ok ()
  | .calledAtLeast n =>
    if e.calls.length < n then
      .error (.assertionError (fnArgStr e.method_name ++ " was called " ++
        toString e.calls.length ++ " times but expected at least" ++ toString n))
    else .ok ()
  | .calledWith cargs => checkCalledWith cargs e.method_name e.calls

/-- The loop of `Expectation.verify`: `for check in self.checks: check(self)`. -/
def runChecks : List Check → Expectation → Except PyErr Unit
  | [], _ => .ok ()
  | c :: rest, e =>
    match runCheck c e with
    | .error err => .error err
    | .ok _ => runChecks rest e

/-- `Expectation.verify`: evaluate every check in declaration order; the first
failure raises, otherwise return `True`. -/
def Expectation.verify (e : Expectation) : Except PyErr Bool :=
  match runChecks e.checks e with
  | .error err => .error err
  | .ok _ => .ok true

/-! ### Configuration operations -/

/-- Append a rule at the end of the rule list. -/
def rulesAppend : RuleList → NormArgs MVal → Expectation → RuleList
  | .nil, m, ne => .cons m ne .nil
  | .cons m0 e0 rest, m, ne => .cons m0 e0 (rulesAppend rest m ne)

def Expectation.setRules : Expectation → RuleList → Expectation
  | .mk fn mn am rs calls checks _, rules => .mk fn mn am rs calls checks rules

def Expectation.withRet : Expectation → RetSpec → Expectation
  | .mk fn mn am _ calls checks rules, rs => .mk fn mn am rs calls checks rules

def Expectation.appendCheck : Expectation → Check → Expectation
  | .mk fn mn am rs calls checks rules, c => .mk fn mn am rs calls (checks ++ [c]) rules

/-- `Expectation.on(self, *args, **kwargs)`: normalize the given arguments
into a matcher-set (errors propagate and nothing is appended), then append a
`(call_matcher, Expectation(method_name=self.method_name, fn=self.fn))` pair.
The Python method returns the freshly appended nested Expectation; here the
updated parent is returned and the nested object is the last rule's second
component. -/
def Expectation.on (e : Expectation) (args : List MVal) (kwargs : List (String × MVal)) :
    Except PyErr Expectation :=
  match normalize_args e.arg_map args kwargs with
  | .error err => .error err
  | .ok call_matcher =>
    match Expectation.initE e.fn e.method_name with
    | .error err => .error err
    | .ok fresh => .ok (e.setRules (rulesAppend e.call_expectations call_matcher fresh))

/-- Overwrite the `_returns` of the LAST rule's nested Expectation: this is
what `e.on(...).returns(v)` / `e.on(...).raises(ex)` do through the alias
returned by `on`. -/
def setLastRuleRet : RuleList → RetSpec → RuleList
  | .nil, _ => .nil
  | .cons m ne .nil, rs => .cons m (ne.withRet rs) .nil
  | .cons m ne rest, rs => .cons m ne (setLastRuleRet rest rs)

/-- `e.on(args...).returns(v)` (or `.raises`, via `rs`), as one step. -/
def Expectation.onRet (e : Expectation) (args : List MVal)
    (kwargs : List (String × MVal)) (rs : RetSpec) : Except PyErr Expectation :=
  (e.on args kwargs).map fun e' => e'.setRules (setLastRuleRet e'.call_expectations rs)

/-- `returns(rv)`: replace the default response; returns `self`. -/
def Expectation.returnsV (e : Expectation) (rv : Val) : Expectation :=
  e.withRet (.ret rv)

/-- `raises(ex)`: make the default response raise; returns `self`. -/
def Expectation.raisesE (e : Expectation) (ex : ExVal) : Expectation :=
  e.withRet (.raiseEx ex)

/-- `never()`: append `CalledExactly(0)`; returns `self`. -/
def Expectation.never (e : Expectation) : Expectation :=
  e.appendCheck (.calledExactly 0)

/-- `once()`: append `CalledExactly(1)`; returns `self`. -/
def Expectation.once (e : Expectation) : Expectation :=
  e.appendCheck (.calledExactly 1)

/-- `at_least(n)`: append `CalledAtLeast(n)`; returns `self`. -/
def Expectation.at_least (e : Expectation) (n : Nat) : Expectation :=
  e.appendCheck (.calledAtLeast n)

/-- `called_with(self, *args, **kwargs)`: normalize exactly as `on` does and
append a `CalledWith` check.  The method body has no `return` statement, so
the Python call evaluates to `None` (`ConfigRet.retNone`), not `self`. -/
def Expectation.called_with (e : Expectation) (args : List MVal)
    (kwargs : List (String × MVal)) : Except PyErr (Expectation × ConfigRet) :=
  match normalize_args e.arg_map args kwargs with
  | .error err => .error err
  | .ok merged => .ok (e.appendCheck (.calledWith merged), ConfigRet.retNone)

/-- Run a sequence of invocations against an Expectation, keeping the state
across calls (also across calls whose dispatch raises, as Python does for a
mock that raises a configured failure). -/
def Expectation.runCalls : Expectation → List (List Val × List (String × Val)) → Expectation
  | e, [] => e
  | e, inv :: rest => Expectation.runCalls (Expectation.call e inv.1 inv.2).1 rest

/-! ### Mock -/

mutual
/-- The state of a `Mock`: the inherited `Expectation` state, the
`member_mocks` list of registered names (in registration order, duplicates
kept on re-registration) and the dynamic attributes holding the child mocks
(`setattr` semantics: one slot per name). -/
inductive Mock where
  | mk : Expectation → List String → MemberList → Mock
/-- The dynamic member attributes of a Mock, in creation order. -/
inductive MemberList where
  | nil : MemberList
  | cons : String → Mock → MemberList → MemberList
end

def Mock.base : Mock → Expectation
  | .mk b _ _ => b

def Mock.member_mocks : Mock → List String
  | .mk _ ns _ => ns

def Mock.members : Mock → MemberList
  | .mk _ _ ms => ms

/-- `getattr(self, name)` restricted to the member attributes. -/
def findMember : MemberList → String → Option Mock
  | .nil, _ => Option.none
  | .cons k m rest, k' => if k' = k then some m else findMember rest k'

/-- `setattr(self, name, child)`: overwrite an existing slot, else append. -/
def setMember : MemberList → String → Mock → MemberList
  | .nil, k, m => .cons k m .nil
  | .cons k0 m0 rest, k, m =>
    if k = k0 then .cons k0 m rest else .cons k0 m0 (setMember rest k m)

/-- `delattr(self, name)`: raises `AttributeError` when the attribute is
missing. -/
def delMember : MemberList → String → Except PyErr MemberList
  | .nil, k => .error (.attributeError k)
  | .cons k0 m0 rest, k =>
    if k = k0 then .ok rest else (delMember rest k).map (MemberList.cons k0 m0)

/-- The loop of `Mock.restore`:
`for method_name in self.member_mocks: delattr(self, method_name)`. -/
def delMembers : List String → MemberList → Except PyErr MemberList
  | [], ms => .ok ms
  | n :: rest, ms =>
    match delMember ms n with
    | .error err => .error err
    | .ok ms' => delMembers rest ms'

/-- `Mock.__init__(self, method_name='', fn=None)` — note the parameter order
is swapped relative to `Expectation.__init__`; it forwards by keyword to
`Expectation.__init__` and sets `member_mocks = []`. -/
def Mock.initE (method_name : FnArg) (fn : FnArg) : Except PyErr Mock :=
  (Expectation.initE fn method_name).map fun b => Mock.mk b [] .nil

/-- `Mock.expects(method_name, fn)`: register the name, create a child
`Mock(method_name=method_name, fn=fn)` as an attribute and return it (here:
return the updated parent; the child is reachable through `findMember`). -/
def Mock.expects (m : Mock) (method_name : String) (fn : FnArg) : Except PyErr Mock :=
  match Mock.initE (.str method_name) fn with
  | .error err => .error err
  | .ok child =>
    .ok (Mock.mk m.base (m.member_mocks ++ [method_name]) (setMember m.members method_name child))

/-- Invoking the Mock itself: inherited `Expectation.__call__`. -/
def Mock.call (m : Mock) (args : List Val) (kwargs : List (String × Val)) :
    Mock × Except PyErr Val :=
  match Expectation.call m.base args kwargs with
  | (b', res) => (Mock.mk b' m.member_mocks m.members, res)

/-- `mock.name(...)`: invoke the dispatch of the named child. -/
def Mock.callMember (m : Mock) (name : String) (args : List Val)
    (kwargs : List (String × Val)) : Mock × Except PyErr Val :=
  match findMember m.members name with
  | Option.none => (m, .error (.attributeError name))
  | some child =>
    match Mock.call child args kwargs with
    | (child', res) => (Mock.mk m.base m.member_mocks (setMember m.members name child'), res)

/-- The loop of `Mock.verify`:
`for mf in self.member_mocks: getattr(self, mf).verify()`, over a table of
the children's (pure) verification results; the first failure raises. -/
def walkNames : List String → List (String × Except PyErr Bool) → Except PyErr Unit
  | [], _ => .ok ()
  | n :: rest, tbl =>
    match lookupD tbl n with
    | Option.none => .error (.attributeError n)
    | some (.error err) => .error err
    | some (.ok _) => walkNames rest tbl

mutual
/-- `Mock.verify`: verify every registered child in registration order (the
first failure raises, short-circuiting the rest), then verify the Mock's own
checks via `Expectation.verify`.  Verification is pure, so precomputing each
child's result in `memberResults` and short-circuiting over the name list is
observably identical to the source's on-demand loop. -/
def Mock.verify : Mock → Except PyErr Bool
  | .mk b names members =>
    match walkNames names (memberResults members) with
    | .error err => .error err
    | .ok _ => Expectation.verify b

/-- The verification result of every member attribute. -/
def memberResults : MemberList → List (String × Except PyErr Bool)
  | .nil => []
  | .cons k m rest => (k, Mock.verify m) :: memberResults rest
end

/-- `Mock.restore`: `delattr` every registered member, then
`Expectation.restore(self)` — whose `self.__init__(self.method_name, self.fn)`
resolves to `Mock.__init__(method_name, fn)`, whose parameter order matches
the call, so for a Mock the state is rebuilt correctly (fresh `_returns`,
empty `calls` / `checks` / `call_expectations` / `member_mocks`, same name
and signature). -/
def Mock.restore (m : Mock) : Except PyErr Mock :=
  match delMembers m.member_mocks m.members with
  | .error err => .error err
  | .ok members' =>
    match Expectation.initE m.base.fn m.base.method_name with
    | .error err => .error err
    | .ok b' => .ok (Mock.mk b' [] members')

/-! ### Helper lemmas: dictionaries -/

theorem getIdxCongr {α : Type} (l : List α) {i j : Nat} (hi : i < l.length)
    (hj : j < l.length) (hij : i = j) : l.get ⟨i, hi⟩ = l.get ⟨j, hj⟩ := by
  subst hij; rfl

theorem lookupD_cons {α : Type} (k0 : String) (v0 : α) (rest : List (String × α)) (k' : String) :
    lookupD ((k0, v0) :: rest) k' = if k' = k0 then some v0 else lookupD rest k' := rfl

theorem lookupD_map_ne {α : Type} (k k' : String) (v : α) (hne : k' ≠ k) :
    ∀ d : List (String × α),
      lookupD (d.map fun p => if p.1 = k then (k, v) else p) k' = lookupD d k' := by
  intro d
  induction d with
  | nil => rfl
  | cons p rest ih =>
    obtain ⟨k0, v0⟩ := p
    rw [List.map_cons]
    by_cases h0 : k0 = k
    · have hh : (if ((k0, v0) : String × α).1 = k then (k, v) else (k0, v0)) = (k, v) := by
        simp [h0]
      rw [hh, lookupD_cons, lookupD_cons, if_neg hne, if_neg (fun h => hne (h.trans h0)), ih]
    · have hh : (if ((k0, v0) : String × α).1 = k then (k, v) else (k0, v0)) = (k0, v0) := by
        simp [h0]
      rw [hh, lookupD_cons, lookupD_cons, ih]

theorem lookupD_map_hit {α : Type} (k : String) (v : α) :
    ∀ d : List (String × α), d.any (fun p => p.1 = k) = true →
      lookupD (d.map fun p => if p.1 = k then (k, v) else p) k = some v := by
  intro d
  induction d with
  | nil => intro h; simp at h
  | cons p rest ih =>
    obtain ⟨k0, v0⟩ := p
    intro hany
    rw [List.map_cons]
    by_cases h0 : k0 = k
    · have hh : (if ((k0, v0) : String × α).1 = k then (k, v) else (k0, v0)) = (k, v) := by
        simp [h0]
      rw [hh, lookupD_cons, if_pos rfl]
    · have hh : (if ((k0, v0) : String × α).1 = k then (k, v) else (k0, v0)) = (k0, v0) := by
        simp [h0]
      have hrest : rest.any (fun p => p.1 = k) = true := by
        rw [List.any_cons] at hany
        rcases Bool.or_eq_true_iff.mp hany with h | h
        · exact absurd (of_decide_eq_true h) h0
        · exact h
      rw [hh, lookupD_cons, if_neg (fun h => h0 h.symm), ih hrest]

theorem lookupD_append_not_mem {α : Type} (k : String) (v : α) :
    ∀ d : List (String × α), d.any (fun p => p.1 = k) = false →
      ∀ k', lookupD (d ++ [(k, v)]) k' = if k' = k then some v else lookupD d k' := by
  intro d
  induction d with
  | nil =>
    intro _ k'
    by_cases hk : k' = k <;> simp [lookupD, hk]
  | cons p rest ih =>
    obtain ⟨k0, v0⟩ := p
    intro hany k'
    rw [List.any_cons] at hany
    obtain ⟨hhead, hrest⟩ := Bool.or_eq_false_iff.mp hany
    have h0 : ¬k0 = k := by simpa using hhead
    rw [List.cons_append, lookupD_cons, lookupD_cons, ih hrest k']
    by_cases h1 : k' = k0
    · have h2 : ¬k' = k := fun h => h0 (h1.symm.trans h)
      rw [if_pos h1, if_neg h2, if_pos h1]
    · rw [if_neg h1]
      by_cases h2 : k' = k
      · rw [if_pos h2, if_pos h2]
      · rw [if_neg h2, if_neg h2, if_neg h1]

theorem lookupD_dictSet {α : Type} (d : List (String × α)) (k : String) (v : α) (k' : String) :
    lookupD (dictSet d k v) k' = if k' = k then some v else lookupD d k' := by
  unfold dictSet
  by_cases hany : d.any (fun p => p.1 = k) = true
  · rw [if_pos hany]
    by_cases hk : k' = k
    · rw [if_pos hk, hk, lookupD_map_hit k v d hany]
    · rw [if_neg hk, lookupD_map_ne k k' v hk d]
  · have hany' : d.any (fun p => p.1 = k) = false := by
      cases h : d.any (fun p => p.1 = k) with
      | true => exact absurd h hany
      | false => rfl
    rw [if_neg hany, lookupD_append_not_mem k v d hany' k']

/-! ### Helper lemmas: positional assignment and normalization -/

theorem assignPositionals_spec {α : Type} (names : List String) (hnd : names.Nodup) :
    ∀ (args : List α) (d : List (String × α)) (i : Nat)
      (h : i + args.length ≤ names.length),
      ∃ d', assignPositionals names d i args = .ok d' ∧
        (∀ j (hj : j < args.length),
          lookupD d' (names.get ⟨i + j, by omega⟩) = some (args.get ⟨j, hj⟩)) ∧
        (∀ k : String, (∀ j (hj : j < args.length), names.get ⟨i + j, by omega⟩ ≠ k) →
          lookupD d' k = lookupD d k) := by
  intro args
  induction args with
  | nil =>
    intro d i h
    exact ⟨d, rfl, fun j hj => absurd hj (Nat.not_lt_zero j),
      fun k _ => rfl⟩
  | cons a rest ih =>
    intro d i h
    have hlen : i + (rest.length + 1) ≤ names.length := h
    have hi : i < names.length := by omega
    have hrest : (i + 1) + rest.length ≤ names.length := by omega
    have hget : names[i]? = some (names.get ⟨i, hi⟩) := by
      rw [List.getElem?_eq_getElem hi, List.get_eq_getElem]
    obtain ⟨d', heq, H1, H2⟩ := ih (dictSet d (names.get ⟨i, hi⟩) a) (i + 1) hrest
    have hstep : assignPositionals names d i (a :: rest)
        = assignPositionals names (dictSet d (names.get ⟨i, hi⟩) a) (i + 1) rest := by
      simp only [assignPositionals]
      rw [hget]
    refine ⟨d', by rw [hstep]; exact heq, ?_, ?_⟩
    · intro j hj
      cases j with
      | zero =>
        have hners : ∀ j' (hj' : j' < rest.length),
            names.get ⟨(i + 1) + j', by omega⟩ ≠ names.get ⟨i, hi⟩ := by
          intro j' hj' hcontra
          have hv : (i + 1) + j' = i := congrArg Fin.val ((hnd.get_inj_iff).mp hcontra)
          omega
        have hrw := H2 (names.get ⟨i, hi⟩) hners
        have hfin : lookupD d' (names.get ⟨i, hi⟩) = some a := by
          rw [hrw, lookupD_dictSet, if_pos rfl]
        exact hfin
      | succ j' =>
        have hj' : j' < rest.length := by
          have : j' + 1 < rest.length + 1 := hj
          omega
        have hidx : names.get ⟨i + (j' + 1), by omega⟩
            = names.get ⟨(i + 1) + j', by omega⟩ :=
          getIdxCongr names (by omega) (by omega) (by omega)
        rw [hidx]
        exact H1 j' hj'
    · intro k hk
      have h00 : names.get ⟨i + 0, by omega⟩ ≠ k := hk 0 (Nat.succ_pos rest.length)
      have hk0 : ¬k = names.get ⟨i, hi⟩ := fun hc =>
        h00 ((getIdxCongr names (by omega) hi (by omega)).trans hc.symm)
      have hkrest : ∀ j (hj : j < rest.length), names.get ⟨(i + 1) + j, by omega⟩ ≠ k := by
        intro j hj
        have hidx : names.get ⟨(i + 1) + j, by omega⟩
            = names.get ⟨i + (j + 1), by omega⟩ :=
          getIdxCongr names (by omega) (by omega) (by omega)
        rw [hidx]
        exact hk (j + 1) (Nat.succ_lt_succ hj)
      rw [H2 k hkrest, lookupD_dictSet, if_neg hk0]

/-! ### Helper lemmas: regex prefix matching -/

theorem matchFrom_iff_prefix : ∀ (cs : List Char) (r : Regex),
    matchFrom r cs = true ↔ ∃ p, p <+: cs ∧ Regex.accepts r p = true := by
  intro cs
  induction cs with
  | nil =>
    intro r
    constructor
    · intro h
      exact ⟨[], List.nil_prefix, h⟩
    · rintro ⟨p, hp, hacc⟩
      have : p = [] := List.prefix_nil.mp hp
      subst this
      exact hacc
  | cons c cs ih =>
    intro r
    constructor
    · intro h
      rcases Bool.or_eq_true_iff.mp h with hn | hm
      · exact ⟨[], List.nil_prefix, hn⟩
      · obtain ⟨p, hp, hacc⟩ := (ih (r.deriv c)).mp hm
        exact ⟨c :: p, (List.cons_prefix_cons).mpr ⟨rfl, hp⟩, hacc⟩
    · rintro ⟨p, hp, hacc⟩
      cases p with
      | nil =>
        simp only [matchFrom, Bool.or_eq_true_iff]
        exact Or.inl hacc
      | cons c' p' =>
        obtain ⟨hc, hp'⟩ := (List.cons_prefix_cons).mp hp
        subst hc
        simp only [matchFrom, Bool.or_eq_true_iff]
        exact Or.inr ((ih (r.deriv c')).mpr ⟨p', hp', hacc⟩)

/-! ### Claim C2 -/

/-- Claim C2 counterexample: with declared names `["a"]`, the positional value 1 and
the keyword entry `a=2`, normalization yields the mapping `a ↦ 1`: the source takes
the keyword dict first and then overlays the positional assignments, so the
positional value — not the keyword value — wins the collision. -/
theorem normalize_keyword_does_not_win_cex :
    normalize_args (some ["a"]) [Val.vint 1] [("a", Val.vint 2)]
        = .ok (.kw [("a", Val.vint 1)]) ∧
    normalize_args (some ["a"]) [Val.vint 1] [("a", Val.vint 2)]
        ≠ .ok (.kw [("a", Val.vint 2)]) :=
  ⟨rfl, by decide⟩

/-- Claim C2 (corrected): with declared parameter names, normalization re-keys the
positional value at index `i` to declared-name `i` and merges with the keyword
mapping without crashing, producing a name-to-value mapping — but on a collision the
positional value wins: the keyword mapping is taken first and positional
assignments are layered on top.  Keys not claimed by a positional argument keep
their keyword value. -/
theorem normalize_rekeys_positionals_which_win_collisions
    (names : List String) (args : List Val) (kwargs : List (String × Val))
    (hnd : names.Nodup) (hlen : args.length ≤ names.length) :
    ∃ d, normalize_args (some names) args kwargs = .ok (.kw d) ∧
      (∀ j (hj : j < args.length),
        lookupD d (names.get ⟨j, by omega⟩) = some (args.get ⟨j, hj⟩)) ∧
      (∀ k : String, (∀ j (hj : j < args.length), names.get ⟨j, by omega⟩ ≠ k) →
        lookupD d k = lookupD kwargs k) := by
  obtain ⟨d, heq, H1, H2⟩ := assignPositionals_spec names hnd args kwargs 0 (by omega)
  refine ⟨d, ?_, ?_, ?_⟩
  · simp only [normalize_args]
    rw [heq]
    rfl
  · intro j hj
    have hidx : names.get ⟨j, by omega⟩ = names.get ⟨0 + j, by omega⟩ :=
      getIdxCongr names (by omega) (by omega) (by omega)
    rw [hidx]
    exact H1 j hj
  · intro k hk
    refine H2 k ?_
    intro j hj
    have hidx : names.get ⟨0 + j, by omega⟩ = names.get ⟨j, by omega⟩ :=
      getIdxCongr names (by omega) (by omega) (by omega)
    rw [hidx]
    exact hk j hj

/-- Witness for the corrected C2 theorem at names `["a","b"]`, positionals `[1]`,
keywords `a=9, b=3`: the result maps `a ↦ 1` (positional wins) and `b ↦ 3`
(keyword kept). -/
theorem normalize_rekeys_positionals_witness :
    (["a", "b"] : List String).Nodup ∧
    [Val.vint 1].length ≤ (["a", "b"] : List String).length ∧
    (∃ d, normalize_args (some ["a", "b"]) [Val.vint 1] [("a", Val.vint 9), ("b", Val.vint 3)]
        = .ok (.kw d) ∧
      lookupD d "a" = some (Val.vint 1) ∧ lookupD d "b" = some (Val.vint 3)) := by
  refine ⟨by decide, by decide, ?_⟩
  obtain ⟨d, heq, H1, H2⟩ := normalize_rekeys_positionals_which_win_collisions
    ["a", "b"] [Val.vint 1] [("a", Val.vint 9), ("b", Val.vint 3)] (by decide) (by decide)
  refine ⟨d, heq, ?_, ?_⟩
  · have h := H1 0 (by decide)
    exact h
  · have hb : ∀ j (hj : j < [Val.vint 1].length),
        (["a", "b"] : List String).get ⟨j, Nat.lt_succ_of_lt hj⟩ ≠ "b" := by
      intro j hj
      have hj0 : j = 0 := by
        have h1 : j < 1 := hj
        omega
      subst hj0
      show (["a", "b"] : List String).get ⟨0, by decide⟩ ≠ "b"
      decide
    have h := H2 "b" hb
    rw [h]
    rfl

/-! ### Claim C3 -/

/-- Claim C3 counterexample: the pattern matcher applied to a non-text value raises
a `TypeError` (from `re.Pattern.match`); it does not return a non-match. -/
theorem like_on_nontext_raises_cex :
    matchEq (.like (.chr 'a')) (Val.vint 5)
        = .error (.typeError "expected string or bytes-like object") ∧
    matchEq (.like (.chr 'a')) (Val.vint 5) ≠ .ok false ∧
    matchEq (.like (.chr 'a')) (Val.vint 5) ≠ .ok true :=
  ⟨rfl, by decide, by decide⟩

/-- Claim C3 (corrected): the value matcher and the type matcher never throw for any
pair of types — a type mismatch is a non-match — and the pattern matcher on a text
value matches iff the pattern accepts some prefix of the text (anchored at the
start, not required to consume the whole string); but the pattern matcher applied
to a non-text value raises a `TypeError` rather than returning a non-match. -/
theorem matcher_totality_and_like_semantics :
    (∀ v w : Val, ∃ b : Bool, matchEq (.lit v) w = .ok b) ∧
    (∀ v w : Val, v.ty ≠ w.ty → matchEq (.lit v) w = .ok false) ∧
    (∀ (t : Ty) (w : Val), ∃ b : Bool, matchEq (.ofType t) w = .ok b ∧ (b = true ↔ w.ty = t)) ∧
    (∀ (r : Regex) (s : String), matchEq (.like r) (.vstr s) = .ok true ↔
      ∃ p, p <+: s.data ∧ Regex.accepts r p = true) ∧
    (∀ (r : Regex) (n : Int), matchEq (.like r) (.vint n)
        = .error (.typeError "expected string or bytes-like object")) ∧
    (∀ r : Regex, matchEq (.like r) Val.vnone
        = .error (.typeError "expected string or bytes-like object")) := by
  refine ⟨?_, ?_, ?_, ?_, ?_, ?_⟩
  · intro v w
    exact ⟨decide (v = w), rfl⟩
  · intro v w hne
    cases v <;> cases w <;> first
      | exact absurd rfl hne
      | rfl
  · intro t w
    exact ⟨decide (w.ty = t), rfl, by simp⟩
  · intro r s
    simp only [matchEq, reMatch, Except.ok.injEq]
    exact matchFrom_iff_prefix s.data r
  · intro r n
    rfl
  · intro r
    rfl

/-- Witness for the corrected C3 theorem: a type-mismatched value matcher at a
concrete input is a non-match, not an error. -/
theorem matcher_totality_witness :
    (Val.vint 1).ty ≠ (Val.vstr "x").ty ∧
    matchEq (.lit (Val.vint 1)) (Val.vstr "x") = .ok false :=
  ⟨by decide, matcher_totality_and_like_semantics.2.1 (Val.vint 1) (Val.vstr "x") (by decide)⟩

/-! ### Claim C4 -/

/-- Claim C4 (code_bug): `Expectation.restore` executes
`self.__init__(self.method_name, self.fn)`, but `Expectation.__init__` declares its
parameters in the opposite order (`fn` first), so on a plain Expectation the name
string lands in the `fn` slot and `fn.__code__` raises an `AttributeError` instead
of clearing state — both for the default construction and for one with a declared
signature.  The call only works for `Mock`, whose `__init__` declares
`(method_name, fn)` in the matching order: restoring a configured Mock clears call
history, checks, rules and members while retaining the name and signature. -/
theorem restore_swaps_init_arguments_bug :
    ((Expectation.initE FnArg.none (FnArg.str "")).bind Expectation.restore
        = .error (.attributeError "str object has no attribute __code__")) ∧
    ((Expectation.initE (FnArg.func ["a"]) (FnArg.str "myfn")).bind Expectation.restore
        = .error (.attributeError "str object has no attribute __code__")) ∧
    (Mock.restore (Mock.mk
        (.mk (.func ["a"]) (.str "m") (some ["a"]) (.ret (.vint 7))
          [NormArgs.kw [("a", Val.vint 1)]] [Check.calledExactly 1]
          (.cons (.kw [("a", MVal.lit (Val.vint 1))])
            (.mk (.func ["a"]) (.str "m") (some ["a"]) (.ret (.vint 9)) [] [] .nil) .nil))
        ["child"]
        (.cons "child"
          (Mock.mk (.mk FnArg.none (.str "child") Option.none (.ret .vnone) [] [] .nil) [] .nil)
          .nil))
      = .ok (Mock.mk (.mk (.func ["a"]) (.str "m") (some ["a"]) (.ret .vnone) [] [] .nil)
          [] .nil)) :=
  ⟨rfl, rfl, rfl⟩

/-! ### Claim C5 -/

/-- The Expectation of claim C5's scenario: bound to the signature of
`f(a, b=2)` — `co_varnames` is `["a", "b"]`; the declared default value 2 is
invisible to the engine — with a `called_with(a=2, b=3)` check configured. -/
def scenarioE : Expectation :=
  .mk (.func ["a", "b"]) (.str "E") (some ["a", "b"]) (.ret .vnone) []
    [Check.calledWith (.kw [("a", MVal.lit (Val.vint 2)), ("b", MVal.lit (Val.vint 3))])] .nil

/-- Claim C5 counterexample: `E(3)` does not normalize to `{a:2, b:3}` — the engine
never consults the declared default `b=2`, so the call normalizes to the singleton
mapping `{a:3}` and the `called_with(a=2, b=3)` check fails after that call alone. -/
theorem single_positional_no_default_cex :
    normalize_args (some ["a", "b"]) [Val.vint 3] ([] : List (String × Val))
        = .ok (.kw [("a", Val.vint 3)]) ∧
    (NormArgs.kw [("a", Val.vint 3)] : NormArgs Val)
        ≠ .kw [("a", Val.vint 2), ("b", Val.vint 3)] ∧
    Expectation.verify ((Expectation.call scenarioE [Val.vint 3] []).1)
        = .error (.assertionError "E was not called with expected args") :=
  ⟨rfl, by decide, rfl⟩

/-- Claim C5 (corrected): for the signature of `f(a, b=2)`, the three invocations
`E(2, 3)`, `E(2, b=3)` and `E(a=2, b=3)` normalize to the same mapping
`{a:2, b:3}` (the same sorted keys and lookups; the insertion order of the dict
differs for the mixed form), and a `called_with(a=2, b=3)` check — built by
`called_with` exactly as configured in `scenarioE` — passes after any one of them;
`E(3)` however normalizes to `{a:3}` (no default filling) and the check fails after
it. -/
theorem signature_normalization_three_forms :
    ((Expectation.initE (.func ["a", "b"]) (.str "E")).bind
        (fun e => (e.called_with [] [("a", .lit (.vint 2)), ("b", .lit (.vint 3))]).map
          Prod.fst)
      = .ok scenarioE) ∧
    (normalize_args (some ["a", "b"]) [Val.vint 2, Val.vint 3] []
        = .ok (.kw [("a", Val.vint 2), ("b", Val.vint 3)])) ∧
    (normalize_args (some ["a", "b"]) [Val.vint 2] [("b", Val.vint 3)]
        = .ok (.kw [("b", Val.vint 3), ("a", Val.vint 2)])) ∧
    (normalize_args (some ["a", "b"]) ([] : List Val) [("a", Val.vint 2), ("b", Val.vint 3)]
        = .ok (.kw [("a", Val.vint 2), ("b", Val.vint 3)])) ∧
    (sortedKeys [("b", Val.vint 3), ("a", Val.vint 2)]
        = sortedKeys [("a", Val.vint 2), ("b", Val.vint 3)] ∧
      lookupD [("b", Val.vint 3), ("a", Val.vint 2)] "a" = some (Val.vint 2) ∧
      lookupD [("b", Val.vint 3), ("a", Val.vint 2)] "b" = some (Val.vint 3)) ∧
    (Expectation.verify ((Expectation.call scenarioE [Val.vint 2, Val.vint 3] []).1)
        = .ok true) ∧
    (Expectation.verify ((Expectation.call scenarioE [Val.vint 2] [("b", Val.vint 3)]).1)
        = .ok true) ∧
    (Expectation.verify
        ((Expectation.call scenarioE [] [("a", Val.vint 2), ("b", Val.vint 3)]).1)
      = .ok true) := by
  refine ⟨rfl, rfl, rfl, rfl, ⟨?_, rfl, rfl⟩, ?_, ?_, ?_⟩ <;> rfl

/-! ### Claim C10 -/

/-- Claim C10 (code_bug): `called_with` appends a `CalledWith` check whose argument
set is normalized exactly as `on` normalizes its matcher-set, but the method body
has no `return` statement: the Python call evaluates to `None`
(`ConfigRet.retNone`), not to `self`, so unlike the other configuration
operations it cannot be chained. -/
theorem called_with_returns_none_bug :
    (Expectation.called_with
        (.mk (.func ["a"]) (.str "m") (some ["a"]) (.ret .vnone) [] [] .nil)
        [.lit (.vint 5)] []
      = .ok (.mk (.func ["a"]) (.str "m") (some ["a"]) (.ret .vnone) []
          [Check.calledWith (.kw [("a", MVal.lit (Val.vint 5))])] .nil,
          ConfigRet.retNone)) ∧
    ConfigRet.retNone ≠ ConfigRet.retSelf ∧
    (Expectation.on (.mk (.func ["a"]) (.str "m") (some ["a"]) (.ret .vnone) [] [] .nil)
        [.lit (.vint 5)] []
      = .ok (.mk (.func ["a"]) (.str "m") (some ["a"]) (.ret .vnone) [] []
          (.cons (.kw [("a", MVal.lit (Val.vint 5))])
            (.mk (.func ["a"]) (.str "m") (some ["a"]) (.ret .vnone) [] [] .nil) .nil))) :=
  ⟨rfl, by decide, rfl⟩

/-! ### Claim C6 -/

/-- Every check passing makes the check loop succeed. -/
theorem runChecks_all_ok (e : Expectation) : ∀ cs : List Check,
    (∀ c ∈ cs, runCheck c e = .ok ()) → runChecks cs e = .ok () := by
  intro cs
  induction cs with
  | nil => intro _; rfl
  | cons c rest ih =>
    intro h
    simp only [runChecks]
    rw [h c (List.mem_cons_self c rest)]
    exact ih fun c' hc' => h c' (List.mem_cons_of_mem c hc')

/-- A prefix of passing checks is skipped over by the check loop. -/
theorem runChecks_ok_prefix (e : Expectation) : ∀ cs1 cs2 : List Check,
    (∀ c ∈ cs1, runCheck c e = .ok ()) →
    runChecks (cs1 ++ cs2) e = runChecks cs2 e := by
  intro cs1
  induction cs1 with
  | nil => intro cs2 _; rfl
  | cons c rest ih =>
    intro cs2 h
    simp only [List.cons_append, runChecks]
    rw [h c (List.mem_cons_self c rest)]
    exact ih cs2 fun c' hc' => h c' (List.mem_cons_of_mem c hc')

/-- Claim C6 (confirmed): after a `once()` check, `verify` raises an
`AssertionError` iff the recorded count is not 1 (and returns `True` iff it is 1);
after `never()` iff it is not 0; after `at_least(k)` iff it is below `k`.  Checks
are evaluated in declaration order: if the first stored check fails, its error is
the result (the rest are short-circuited), and if every stored check passes,
`verify` returns `True`. -/
theorem verify_count_checks :
    (∀ e : Expectation, e.checks = [] →
      (((∃ msg, (e.once).verify = .error (.assertionError msg)) ↔ e.calls.length ≠ 1) ∧
       ((e.once).verify = .ok true ↔ e.calls.length = 1))) ∧
    (∀ e : Expectation, e.checks = [] →
      (((∃ msg, (e.never).verify = .error (.assertionError msg)) ↔ e.calls.length ≠ 0) ∧
       ((e.never).verify = .ok true ↔ e.calls.length = 0))) ∧
    (∀ (e : Expectation) (k : Nat), e.checks = [] →
      (((∃ msg, (e.at_least k).verify = .error (.assertionError msg)) ↔ e.calls.length < k) ∧
       ((e.at_least k).verify = .ok true ↔ k ≤ e.calls.length))) ∧
    (∀ (e : Expectation) (cs1 : List Check) (c : Check) (cs2 : List Check) (err : PyErr),
      e.checks = cs1 ++ c :: cs2 → (∀ c' ∈ cs1, runCheck c' e = .ok ()) →
      runCheck c e = .error err →
      e.verify = .error err) ∧
    (∀ e : Expectation, (∀ c ∈ e.checks, runCheck c e = .ok ()) → e.verify = .ok true) := by
  refine ⟨?_, ?_, ?_, ?_, ?_⟩
  · intro e hch
    obtain ⟨fn, mn, am, rs, calls, checks, rules⟩ := e
    simp only [Expectation.checks] at hch
    subst hch
    by_cases h : calls.length = 1 <;>
      simp [Expectation.once, Expectation.appendCheck, Expectation.verify, runChecks,
        runCheck, Expectation.calls, Expectation.checks, Expectation.method_name, h]
  · intro e hch
    obtain ⟨fn, mn, am, rs, calls, checks, rules⟩ := e
    simp only [Expectation.checks] at hch
    subst hch
    by_cases h : calls.length = 0 <;>
      simp [Expectation.never, Expectation.appendCheck, Expectation.verify, runChecks,
        runCheck, Expectation.calls, Expectation.checks, Expectation.method_name, h]
  · intro e k hch
    obtain ⟨fn, mn, am, rs, calls, checks, rules⟩ := e
    simp only [Expectation.checks] at hch
    subst hch
    by_cases h : calls.length < k <;>
      · simp [Expectation.at_least, Expectation.appendCheck, Expectation.verify, runChecks,
          runCheck, Expectation.calls, Expectation.checks, Expectation.method_name, h]
        try omega
  · intro e cs1 c cs2 err hch hok hrc
    simp only [Expectation.verify, hch, runChecks_ok_prefix e cs1 (c :: cs2) hok,
      runChecks, hrc]
  · intro e h
    simp only [Expectation.verify, runChecks_all_ok e e.checks h]

/-- Witness for C6 at an Expectation with exactly one recorded call and no prior
checks: `once()` then `verify` returns `True`. -/
theorem verify_count_checks_witness :
    ((Expectation.mk FnArg.none (.str "m") Option.none (.ret .vnone)
        [NormArgs.pos [Val.vint 5]] [] .nil).checks = []) ∧
    (((Expectation.mk FnArg.none (.str "m") Option.none (.ret .vnone)
        [NormArgs.pos [Val.vint 5]] [] .nil).once).verify = .ok true ↔
      (Expectation.mk FnArg.none (.str "m") Option.none (.ret .vnone)
        [NormArgs.pos [Val.vint 5]] [] .nil).calls.length = 1) :=
  ⟨rfl, (verify_count_checks.1 (Expectation.mk FnArg.none (.str "m") Option.none
    (.ret .vnone) [NormArgs.pos [Val.vint 5]] [] .nil) rfl).2⟩

/-! ### Claim C7 -/

/-- Claim C7 (confirmed): for an Expectation with no declared parameter-name list,
an invocation with any keyword argument raises an `AssertionError` before anything
is recorded (the object is returned untouched), an `on` with any keyword argument
raises the same error without appending a rule, and positional-only invocations
are accepted, normalized to the positional sequence as-is and appended to the
call history. -/
theorem no_signature_kwargs_rejected :
    (∀ (e : Expectation) (args : List Val) (kwargs : List (String × Val)),
      e.arg_map = Option.none → kwargs ≠ [] →
      Expectation.call e args kwargs
        = (e, .error (.assertionError "cannot merge kwargs without function definition"))) ∧
    (∀ (e : Expectation) (args : List MVal) (kwargs : List (String × MVal)),
      e.arg_map = Option.none → kwargs ≠ [] →
      Expectation.on e args kwargs
        = .error (.assertionError "cannot merge kwargs without function definition")) ∧
    (∀ args : List Val,
      normalize_args Option.none args ([] : List (String × Val)) = .ok (.pos args)) ∧
    (∀ (e : Expectation) (args : List Val),
      e.arg_map = Option.none →
      (Expectation.call e args []).1.calls = e.calls ++ [.pos args]) := by
  refine ⟨?_, ?_, ?_, ?_⟩
  · intro e args kwargs ham hne
    obtain ⟨fn, mn, am, rs, calls, checks, rules⟩ := e
    simp only [Expectation.arg_map] at ham
    subst ham
    cases kwargs with
    | nil => exact absurd rfl hne
    | cons p rest => rfl
  · intro e args kwargs ham hne
    obtain ⟨fn, mn, am, rs, calls, checks, rules⟩ := e
    simp only [Expectation.arg_map] at ham
    subst ham
    cases kwargs with
    | nil => exact absurd rfl hne
    | cons p rest => rfl
  · intro args
    rfl
  · intro e args ham
    obtain ⟨fn, mn, am, rs, calls, checks, rules⟩ := e
    simp only [Expectation.arg_map] at ham
    subst ham
    rcases hw : walkRules rules args [] (.pos args) with ⟨rules', r⟩
    cases r with
    | none => simp [Expectation.call, normalize_args, hw, Expectation.calls]
    | some res => simp [Expectation.call, normalize_args, hw, Expectation.calls]

/-- Witness for C7: a keyword invocation of a signature-less Expectation raises and
records nothing; the same call without keywords is recorded as the raw tuple. -/
theorem no_signature_kwargs_rejected_witness :
    ((Expectation.mk FnArg.none (.str "m") Option.none (.ret .vnone) [] [] .nil).arg_map
        = Option.none) ∧
    (([(("a" : String), Val.vint 5)] : List (String × Val)) ≠ []) ∧
    (Expectation.call (.mk FnArg.none (.str "m") Option.none (.ret .vnone) [] [] .nil)
        [] [("a", Val.vint 5)]
      = (.mk FnArg.none (.str "m") Option.none (.ret .vnone) [] [] .nil,
          .error (.assertionError "cannot merge kwargs without function definition"))) ∧
    ((Expectation.call (.mk FnArg.none (.str "m") Option.none (.ret .vnone) [] [] .nil)
        [Val.vint 5] []).1.calls = [] ++ [.pos [Val.vint 5]]) :=
  ⟨rfl, by decide,
    no_signature_kwargs_rejected.1 _ [] [("a", Val.vint 5)] rfl (by decide),
    no_signature_kwargs_rejected.2.2.2 _ [Val.vint 5] rfl⟩

/-! ### Claim C1 -/

/-- Dispatch never changes the stored argument map. -/
theorem call_preserves_arg_map (e : Expectation) (args : List Val)
    (kwargs : List (String × Val)) :
    (Expectation.call e args kwargs).1.arg_map = e.arg_map := by
  obtain ⟨fn, mn, am, rs, calls, checks, rules⟩ := e
  cases hn : normalize_args am args kwargs with
  | error err => simp [Expectation.call, hn, Expectation.arg_map]
  | ok merged =>
    rcases hw : walkRules rules args kwargs merged with ⟨rules', r⟩
    cases r with
    | none => simp [Expectation.call, hn, hw, Expectation.arg_map]
    | some res => simp [Expectation.call, hn, hw, Expectation.arg_map]

/-- When normalization succeeds, dispatch appends exactly the merged form to the
call history — whether or not a rule matches, and whether or not the produced
result is a raised failure. -/
theorem call_appends_merged (e : Expectation) (args : List Val)
    (kwargs : List (String × Val)) (merged : NormArgs Val)
    (h : normalize_args e.arg_map args kwargs = .ok merged) :
    (Expectation.call e args kwargs).1.calls = e.calls ++ [merged] := by
  obtain ⟨fn, mn, am, rs, calls, checks, rules⟩ := e
  simp only [Expectation.arg_map] at h
  rcases hw : walkRules rules args kwargs merged with ⟨rules', r⟩
  cases r with
  | none => simp [Expectation.call, h, hw, Expectation.calls]
  | some res => simp [Expectation.call, h, hw, Expectation.calls]

/-- No matcher in the rule list fully matches the merged call. -/
def noRuleMatches (merged : NormArgs Val) : RuleList → Prop
  | .nil => True
  | .cons m _ rest => args_match_call merged m = .ok false ∧ noRuleMatches merged rest

/-- When no rule matches, the rule walk returns the rules untouched and reports
no dispatch. -/
theorem walkRules_no_match (args : List Val) (kwargs : List (String × Val))
    (merged : NormArgs Val) :
    ∀ rules : RuleList, noRuleMatches merged rules →
      walkRules rules args kwargs merged = (rules, Option.none)
  | .nil, _ => rfl
  | .cons m ne rest, h => by
    obtain ⟨h1, h2⟩ := h
    have ih := walkRules_no_match args kwargs merged rest h2
    simp [walkRules, h1, ih]

/-- Claim C1 (confirmed): (1) any sequence of invocations whose arguments
normalize successfully grows the call history by exactly its length — also when a
dispatch raises a configured failure, since the state after an erroring call is
kept; (2) with rule R1 on the literal 5 declared before rule R2 on `OfType(int)`,
invoking with 5 appends the call and dispatches R1's response, not R2's; (3) when
no rule matches a successfully normalized call, the merged form is still appended,
the rules are untouched and the default response is used: the configured failure is
raised if `raises` was set, else the configured value (`None` when nothing was
configured) is returned. -/
theorem dispatch_records_first_match_and_default :
    (∀ (e : Expectation) (invs : List (List Val × List (String × Val))),
      (∀ inv ∈ invs, ∃ m, normalize_args e.arg_map inv.1 inv.2 = .ok m) →
      (Expectation.runCalls e invs).calls.length = e.calls.length + invs.length) ∧
    ((Expectation.call
        (.mk FnArg.none (.str "m") Option.none (.ret .vnone) [] []
          (.cons (.pos [.lit (.vint 5)])
            (.mk FnArg.none (.str "m") Option.none (.ret (.vstr "r1")) [] [] .nil)
            (.cons (.pos [.ofType .int])
              (.mk FnArg.none (.str "m") Option.none (.ret (.vstr "r2")) [] [] .nil)
              .nil)))
        [Val.vint 5] []).2 = .ok (.vstr "r1") ∧
      (Expectation.call
        (.mk FnArg.none (.str "m") Option.none (.ret .vnone) [] []
          (.cons (.pos [.lit (.vint 5)])
            (.mk FnArg.none (.str "m") Option.none (.ret (.vstr "r1")) [] [] .nil)
            (.cons (.pos [.ofType .int])
              (.mk FnArg.none (.str "m") Option.none (.ret (.vstr "r2")) [] [] .nil)
              .nil)))
        [Val.vint 5] []).1.calls = [NormArgs.pos [Val.vint 5]]) ∧
    (∀ (e : Expectation) (args : List Val) (kwargs : List (String × Val))
        (merged : NormArgs Val),
      normalize_args e.arg_map args kwargs = .ok merged →
      noRuleMatches merged e.call_expectations →
      (Expectation.call e args kwargs).1.calls = e.calls ++ [merged] ∧
      (Expectation.call e args kwargs).1.call_expectations = e.call_expectations ∧
      (Expectation.call e args kwargs).2 = runRet e.retSpec ∧
      (∀ ex, e.retSpec = .raiseEx ex →
        (Expectation.call e args kwargs).2 = .error (.raised ex)) ∧
      (∀ v, e.retSpec = .ret v → (Expectation.call e args kwargs).2 = .ok v)) := by
  refine ⟨?_, ⟨rfl, rfl⟩, ?_⟩
  · intro e invs
    induction invs generalizing e with
    | nil =>
      intro _
      simp [Expectation.runCalls]
    | cons inv rest ih =>
      intro h
      obtain ⟨m, hm⟩ := h inv (List.mem_cons_self inv rest)
      have hlen1 : (Expectation.call e inv.1 inv.2).1.calls = e.calls ++ [m] :=
        call_appends_merged e inv.1 inv.2 m hm
      have hrest : ∀ inv' ∈ rest,
          ∃ m', normalize_args (Expectation.call e inv.1 inv.2).1.arg_map inv'.1 inv'.2
            = .ok m' := by
        intro inv' hmem
        rw [call_preserves_arg_map]
        exact h inv' (List.mem_cons_of_mem inv hmem)
      simp only [Expectation.runCalls]
      rw [ih _ hrest, hlen1]
      simp only [List.length_append, List.length_cons, List.length_nil]
      omega
  · intro e args kwargs merged hn hno
    obtain ⟨fn, mn, am, rs, calls, checks, rules⟩ := e
    simp only [Expectation.arg_map] at hn
    simp only [Expectation.call_expectations] at hno
    have hw := walkRules_no_match args kwargs merged rules hno
    refine ⟨?_, ?_, ?_, ?_, ?_⟩
    · simp [Expectation.call, hn, hw, Expectation.calls]
    · simp [Expectation.call, hn, hw, Expectation.call_expectations]
    · simp [Expectation.call, hn, hw, Expectation.retSpec]
    · intro ex hex
      simp only [Expectation.retSpec] at hex
      subst hex
      simp [Expectation.call, hn, hw, runRet]
    · intro v hv
      simp only [Expectation.retSpec] at hv
      subst hv
      simp [Expectation.call, hn, hw, runRet]

/-- Witness for C1: two positional invocations of a signature-less Expectation
configured to raise a `ValueError` leave a history of length 2 even though both
dispatches raise, and a call to an Expectation whose single rule does not match
falls back to raising the configured failure. -/
theorem dispatch_records_first_match_and_default_witness :
    ((∀ inv ∈ ([([Val.vint 1], []), ([Val.vint 2], [])] :
        List (List Val × List (String × Val))),
      ∃ m, normalize_args
        (Expectation.mk FnArg.none (.str "m") Option.none
          (.raiseEx ⟨"ValueError", "boom"⟩) [] [] .nil).arg_map inv.1 inv.2 = .ok m) ∧
      (Expectation.runCalls
        (.mk FnArg.none (.str "m") Option.none (.raiseEx ⟨"ValueError", "boom"⟩) [] [] .nil)
        [([Val.vint 1], []), ([Val.vint 2], [])]).calls.length
      = (Expectation.mk FnArg.none (.str "m") Option.none
          (.raiseEx ⟨"ValueError", "boom"⟩) [] [] .nil).calls.length + 2) ∧
    ((Expectation.call
        (.mk FnArg.none (.str "m") Option.none (.raiseEx ⟨"ValueError", "boom"⟩) [] []
          (.cons (.pos [.lit (.vint 5)])
            (.mk FnArg.none (.str "m") Option.none (.ret (.vstr "r1")) [] [] .nil) .nil))
        [Val.vint 7] []).2 = .error (.raised ⟨"ValueError", "boom"⟩)) := by
  constructor
  · have hforall : ∀ inv ∈ ([([Val.vint 1], []), ([Val.vint 2], [])] :
        List (List Val × List (String × Val))),
        ∃ m, normalize_args
          (Expectation.mk FnArg.none (.str "m") Option.none
            (.raiseEx ⟨"ValueError", "boom"⟩) [] [] .nil).arg_map inv.1 inv.2 = .ok m := by
      intro inv hmem
      simp only [List.mem_cons, List.not_mem_nil, or_false] at hmem
      rcases hmem with rfl | rfl
      · exact ⟨.pos [Val.vint 1], rfl⟩
      · exact ⟨.pos [Val.vint 2], rfl⟩
    exact ⟨hforall, dispatch_records_first_match_and_default.1
      (.mk FnArg.none (.str "m") Option.none (.raiseEx ⟨"ValueError", "boom"⟩) [] [] .nil)
      [([Val.vint 1], []), ([Val.vint 2], [])] hforall⟩
  · exact (dispatch_records_first_match_and_default.2.2
      (.mk FnArg.none (.str "m") Option.none (.raiseEx ⟨"ValueError", "boom"⟩) [] []
        (.cons (.pos [.lit (.vint 5)])
          (.mk FnArg.none (.str "m") Option.none (.ret (.vstr "r1")) [] [] .nil) .nil))
      [Val.vint 7] [] (.pos [Val.vint 7]) rfl ⟨rfl, trivial⟩).2.2.2.1
      ⟨"ValueError", "boom"⟩ rfl

/-! ### Claim C9 -/

theorem mem_insertSorted (x a : String) :
    ∀ l : List String, a ∈ insertSorted x l ↔ a = x ∨ a ∈ l := by
  intro l
  induction l with
  | nil => simp [insertSorted]
  | cons y ys ih =>
    by_cases h : strLeB x y = true
    · have hif : insertSorted x (y :: ys) = x :: y :: ys := by
        simp [insertSorted, h]
      rw [hif]
      simp [List.mem_cons]
    · have hif : insertSorted x (y :: ys) = y :: insertSorted x ys := by
        simp [insertSorted, h]
      rw [hif, List.mem_cons, ih, List.mem_cons]
      tauto

theorem mem_sortStrings (a : String) :
    ∀ l : List String, a ∈ sortStrings l ↔ a ∈ l := by
  intro l
  induction l with
  | nil => simp [sortStrings]
  | cons y ys ih =>
    simp only [sortStrings, mem_insertSorted, List.mem_cons, ih]

/-- Claim C9 (confirmed): a rule matches an invocation only when its key set is
exactly the call's key set.  (1) A normalized call and a matcher-set of different
shapes (positional tuple vs. name mapping, either way around) never match.
(2) When a mapping-shaped call matches a mapping-shaped rule, the sorted key lists
are equal — hence the key sets coincide.  (3) In particular the rule on
`{targ1: 6}` does not match the call normalizing to `{targ1: 6, targ2: 7}`, and
(4) dispatching such a call on an Expectation whose only rule is `{targ1: 6}`
falls back to the default response, while the exact call `{targ1: 6}` does fire
the rule. -/
theorem rule_match_requires_exact_key_set :
    (∀ (el : List Val) (am : List (String × MVal)),
      args_match_call (.pos el) (.kw am) = .ok false) ∧
    (∀ (em : List (String × Val)) (al : List MVal),
      args_match_call (.kw em) (.pos al) = .ok false) ∧
    (∀ (cm : List (String × Val)) (rm : List (String × MVal)),
      args_match_call (.kw cm) (.kw rm) = .ok true →
      sortedKeys cm = sortedKeys rm ∧ (∀ k, k ∈ keysOf cm ↔ k ∈ keysOf rm)) ∧
    (args_match_call (.kw [("targ1", Val.vint 6), ("targ2", Val.vint 7)])
        (.kw [("targ1", .lit (.vint 6))]) = .ok false) ∧
    ((Expectation.call
        (.mk (.func ["targ1", "targ2"]) (.str "m") (some ["targ1", "targ2"])
          (.ret .vnone) [] []
          (.cons (.kw [("targ1", .lit (.vint 6))])
            (.mk (.func ["targ1", "targ2"]) (.str "m") (some ["targ1", "targ2"])
              (.ret (.vint 42)) [] [] .nil) .nil))
        [Val.vint 6, Val.vint 7] []).2 = .ok .vnone) ∧
    ((Expectation.call
        (.mk (.func ["targ1", "targ2"]) (.str "m") (some ["targ1", "targ2"])
          (.ret .vnone) [] []
          (.cons (.kw [("targ1", .lit (.vint 6))])
            (.mk (.func ["targ1", "targ2"]) (.str "m") (some ["targ1", "targ2"])
              (.ret (.vint 42)) [] [] .nil) .nil))
        [Val.vint 6] []).2 = .ok (.vint 42)) := by
  refine ⟨fun el am => rfl, fun em al => rfl, ?_, rfl, rfl, rfl⟩
  intro cm rm h
  by_cases hk : sortedKeys cm = sortedKeys rm
  · refine ⟨hk, ?_⟩
    intro k
    have h1 : (k ∈ keysOf cm) ↔ k ∈ sortStrings (keysOf cm) :=
      (mem_sortStrings k (keysOf cm)).symm
    have h2 : (k ∈ keysOf rm) ↔ k ∈ sortStrings (keysOf rm) :=
      (mem_sortStrings k (keysOf rm)).symm
    rw [h1, h2]
    show k ∈ sortedKeys cm ↔ k ∈ sortedKeys rm
    rw [hk]
  · rw [args_match_call, if_neg hk] at h
    exact absurd h (by simp)

/-- Witness for C9 part (2) at a concrete matching pair: the key sets coincide. -/
theorem rule_match_requires_exact_key_set_witness :
    (args_match_call (.kw [("a", Val.vint 1)]) (.kw [("a", MVal.lit (Val.vint 1))])
        = .ok true) ∧
    (sortedKeys [(("a" : String), Val.vint 1)]
        = sortedKeys [(("a" : String), MVal.lit (Val.vint 1))] ∧
      (∀ k, k ∈ keysOf [(("a" : String), Val.vint 1)]
          ↔ k ∈ keysOf [(("a" : String), MVal.lit (Val.vint 1))])) :=
  ⟨rfl, rule_match_requires_exact_key_set.2.2.1
    [("a", Val.vint 1)] [("a", MVal.lit (Val.vint 1))] rfl⟩

/-! ### Claim C8 -/

/-- The member Mock named `c1`, carrying a `once()` check and no calls: its own
verification fails. -/
def failingChild : Mock :=
  .mk (.mk FnArg.none (.str "c1") Option.none (.ret .vnone) [] [Check.calledExactly 1] .nil)
    [] .nil

/-- The member Mock named `c2`, also failing on its own `once()` check. -/
def failingChild2 : Mock :=
  .mk (.mk FnArg.none (.str "c2") Option.none (.ret .vnone) [] [Check.calledExactly 1] .nil)
    [] .nil

/-- A member Mock that verifies successfully. -/
def passingChild : Mock :=
  .mk (.mk FnArg.none (.str "ok") Option.none (.ret .vnone)
    [NormArgs.pos []] [Check.calledExactly 1] .nil) [] .nil

/-- Claim C8 (confirmed): `Mock.verify` verifies every registered child in
registration order before its own checks: (1) whenever the walk over the
registered names fails, the Mock's result is exactly that failure, for every
base Expectation — the Mock's own checks are never consulted; (2) whenever the
walk succeeds, the result is exactly the verification of the Mock's own
Expectation state (so a Mock carries call-count checks like any Expectation);
(3) concretely, with failing children `c1` then `c2` registered in this order and
a failing own check, the reported failure is `c1`'s; (4) a grandchild's failure
propagates through the recursion; (5) when all children pass, the Mock's own
passing checks yield `True`. -/
theorem mock_verify_children_then_own :
    (∀ (b : Expectation) (ns : List String) (ms : MemberList) (err : PyErr),
      walkNames ns (memberResults ms) = .error err →
      Mock.verify (.mk b ns ms) = .error err) ∧
    (∀ (b : Expectation) (ns : List String) (ms : MemberList),
      walkNames ns (memberResults ms) = .ok () →
      Mock.verify (.mk b ns ms) = Expectation.verify b) ∧
    (Mock.verify (.mk
        (.mk FnArg.none (.str "parent") Option.none (.ret .vnone) []
          [Check.calledExactly 3] .nil)
        ["c1", "c2"]
        (.cons "c1" failingChild (.cons "c2" failingChild2 .nil)))
      = .error (.assertionError
          "c1 was called 0 time(s) but expected exactly 1 time(s)")) ∧
    (Mock.verify (.mk
        (.mk FnArg.none (.str "parent") Option.none (.ret .vnone) [] [] .nil)
        ["mid"]
        (.cons "mid"
          (Mock.mk (.mk FnArg.none (.str "mid") Option.none (.ret .vnone) [] [] .nil)
            ["c1"] (.cons "c1" failingChild .nil))
          .nil))
      = .error (.assertionError
          "c1 was called 0 time(s) but expected exactly 1 time(s)")) ∧
    (Mock.verify (.mk
        (.mk FnArg.none (.str "parent") Option.none (.ret .vnone)
          [NormArgs.pos [Val.vint 1]] [Check.calledAtLeast 1] .nil)
        ["ok"] (.cons "ok" passingChild .nil))
      = .ok true) := by
  refine ⟨?_, ?_, rfl, rfl, rfl⟩
  · intro b ns ms err h
    simp only [Mock.verify, h]
  · intro b ns ms h
    simp only [Mock.verify, h]

/-- Witness for C8 at a concrete Mock whose single child fails: the recursive
verification reports the child's error for an arbitrary failing own state. -/
theorem mock_verify_children_then_own_witness :
    (walkNames ["c1"] (memberResults (.cons "c1" failingChild .nil))
        = .error (.assertionError
          "c1 was called 0 time(s) but expected exactly 1 time(s)")) ∧
    (Mock.verify (.mk
        (.mk FnArg.none (.str "parent") Option.none (.ret .vnone) []
          [Check.calledExactly 9] .nil)
        ["c1"] (.cons "c1" failingChild .nil))
      = .error (.assertionError
          "c1 was called 0 time(s) but expected exactly 1 time(s)")) :=
  ⟨rfl, mock_verify_children_then_own.1
    (.mk FnArg.none (.str "parent") Option.none (.ret .vnone) [] [Check.calledExactly 9] .nil)
    ["c1"] (.cons "c1" failingChild .nil) _ rfl⟩

end Funkpy
